import Mathlib

/-!
Verification of the `RasterStack` module (`rlearnlibs/raster.py`) of the
r.learn.ml repository.

The Python module wraps a collection of same-extent GRASS rasters and offers
windowed masked reads, sampling extractors, and a prediction dispatcher.  The
definitions below are a shallow embedding of that code:

* a raster cell value is `Val := Option Int` — `some z` is a finite stored
  value, `none` is a non-finite value (NaN/inf) as produced by the storage
  engine for float nulls;
* `RasterStack.read` (lines 294–363) becomes `readData`/`readMask`/`read`,
  including the Python truthiness of the `elif row:` branch (false for
  `row = 0`) and the `np.ma` mask pipeline with its possible scalar
  (`np.bool_`) "no mask" representation and the explicit expansion at lines
  358–361;
* `RasterStack.row_windows` (lines 700–718) becomes `rowWindowsFrom` /
  `rowWindows`;
* the three prediction functions, the probability-label logic of
  `predict_proba`, the open/try/finally discipline of `_predict_multi`, the
  `extract_points` join, the `extract_pixels` label coercion and
  `__getitem__` are embedded further below.
-/

/-- A raster cell value: `some z` is a finite value, `none` a non-finite one
(NaN or infinity).  The GRASS CELL null is read back as the integer sentinel,
the FCELL/DCELL null as a non-finite value. -/
abbrev Val := Option Int

/-- `RasterStack._cell_nodata` (line 61): the integer no-data sentinel. -/
def cellNodata : Int := -2147483648

/-- The computational region metadata (`grass.pygrass.gis.region.Region`):
only the row and column counts are consumed by the embedded code. -/
structure Region where
  rows : Nat
  cols : Nat

/-- An external raster layer, as the storage engine presents it to `read`:
the value of each (row, column) cell.  `f[row]` and `np.asarray(f)` both
deliver these values. -/
abbrev Layer := Nat → Nat → Val

/-- One row of `cols` cells of layer `L` at row index `r`
(the buffer `f[r]`, resp. one row of `np.asarray(f)`). -/
def rowVals (L : Layer) (r cols : Nat) : List Val :=
  (List.range cols).map (L r)

/-- The data array produced by `RasterStack.read` (lines 319–352), before
masking.  Mirrors the Python branches:

* `if window:` — a 2-tuple is always truthy; the array is pre-sized with
  `height = abs(row_stop - row_start)` rows and the rows
  `range(row_start, row_stop)` are filled in, any remaining rows keeping the
  `np.zeros` fill;
* `elif row:` — truthy only for `row ≠ 0`, reading the single row `row`;
* `else:` — `row = 0` or nothing supplied reads the entire region. -/
def readData (st : List Layer) (reg : Region) (row : Option Nat)
    (window : Option (Nat × Nat)) : List (List (List Val)) :=
  match window with
  | some (a, b) =>
      st.map fun L => (List.range (max a b - min a b)).map fun i =>
        if i < b - a then rowVals L (a + i) reg.cols
        else List.replicate reg.cols (some 0)
  | none =>
      match row with
      | some r =>
          if r = 0 then
            st.map fun L => (List.range reg.rows).map fun r2 => rowVals L r2 reg.cols
          else
            st.map fun L => [rowVals L r reg.cols]
      | none =>
          st.map fun L => (List.range reg.rows).map fun r2 => rowVals L r2 reg.cols

/-- Whether `np.ma.masked_equal(·, cellNodata)` or `np.ma.masked_invalid`
masks a cell: equal to the sentinel, or non-finite (lines 355–356). -/
def cellMasked (v : Val) : Bool :=
  match v with
  | none => true
  | some z => z == cellNodata

/-- The cell-wise boolean mask of a 3-d data array. -/
def mask3 (d : List (List (List Val))) : List (List (List Bool)) :=
  d.map fun b => b.map fun r => r.map cellMasked

/-- The mask as `np.ma` may hold it after `masked_equal`/`masked_invalid`:
`none` models the shrunk scalar `np.bool_` "no mask" representation when no
cell is masked, `some m` the explicit boolean array. -/
def rawMask (d : List (List (List Val))) : Option (List (List (List Bool))) :=
  if (mask3 d).all fun b => b.all fun r => r.all (· = false) then none
  else some (mask3 d)

/-- An all-`False` boolean array of the shape of `d`
(`mask_arr = np.empty(data.shape, dtype=bool); mask_arr[:] = False`). -/
def falseLike (d : List (List (List Val))) : List (List (List Bool)) :=
  d.map fun b => b.map fun r => r.map fun _ => false

/-- The mask returned by `read` (lines 354–361): the `np.ma` mask, with a
scalar "no mask" expanded to an explicit all-`False` array of the data's
shape. -/
def readMask (d : List (List (List Val))) : List (List (List Bool)) :=
  match rawMask d with
  | none => falseLike d
  | some m => m

/-- The masked 3-d array returned by `RasterStack.read`. -/
structure MaskedRead where
  data : List (List (List Val))
  mask : List (List (List Bool))

/-- `RasterStack.read` (lines 294–363). -/
def read (st : List Layer) (reg : Region) (row : Option Nat)
    (window : Option (Nat × Nat)) : MaskedRead :=
  { data := readData st reg row window
    mask := readMask (readData st reg row window) }

/-- `RasterStack.row_windows` (lines 700–718): the windows generated from
`start`, i.e. `(row, row+height)` clipped to the region's rows, for
`row in range(start, rows, height)`.  A zero height (a `ValueError` for
Python's `range`) yields no windows. -/
def rowWindowsFrom (rows h start : Nat) : List (Nat × Nat) :=
  if _h : start < rows ∧ 0 < h then
    (start, min (start + h) rows) :: rowWindowsFrom rows h (start + h)
  else []
termination_by rows - start
decreasing_by omega

/-- `RasterStack.row_windows(height=h)` over a `rows`-row region. -/
def rowWindows (rows h : Nat) : List (Nat × Nat) :=
  rowWindowsFrom rows h 0

/-- The shape of a 3-d nested list: per band, the list of row lengths. -/
def shape3 {α : Type} (x : List (List (List α))) : List (List Nat) :=
  x.map fun b => b.map (·.length)

-- Helper lemmas about the mask pipeline.

theorem map_const_false_of_all_false (m : List Bool)
    (h : m.all (· = false) = true) : m.map (fun _ => false) = m := by
  induction m with
  | nil => rfl
  | cons x xs ih =>
      simp only [List.all_cons, Bool.and_eq_true] at h
      simp only [List.map_cons, ih h.2]
      have hx : x = false := by simpa using h.1
      rw [hx]

theorem map2_const_false_of_all_false (m : List (List Bool))
    (h : m.all (fun r => r.all (· = false)) = true) :
    m.map (fun r => r.map (fun _ => false)) = m := by
  induction m with
  | nil => rfl
  | cons x xs ih =>
      simp only [List.all_cons, Bool.and_eq_true] at h
      simp only [List.map_cons, ih h.2, map_const_false_of_all_false x h.1]

theorem map3_const_false_of_all_false (m : List (List (List Bool)))
    (h : m.all (fun b => b.all fun r => r.all (· = false)) = true) :
    m.map (fun b => b.map fun r => r.map fun _ => false) = m := by
  induction m with
  | nil => rfl
  | cons x xs ih =>
      simp only [List.all_cons, Bool.and_eq_true] at h
      simp only [List.map_cons, ih h.2, map2_const_false_of_all_false x h.1]

/-- The normalized mask of lines 354–361 is exactly the cell-wise mask:
expanding the scalar "no mask" to an all-`False` array reproduces the
cell-wise array, because that case only arises when no cell is masked. -/
theorem readMask_eq_mask3 (d : List (List (List Val))) :
    readMask d = mask3 d := by
  unfold readMask rawMask
  by_cases hall : ((mask3 d).all fun b => b.all fun r => r.all (· = false)) = true
  · rw [if_pos hall]
    show falseLike d = mask3 d
    have : (mask3 d).map (fun b => b.map fun r => r.map fun _ => false) = mask3 d :=
      map3_const_false_of_all_false _ hall
    calc falseLike d
        = (mask3 d).map (fun b => b.map fun r => r.map fun _ => false) := by
          simp [mask3, falseLike, List.map_map, Function.comp]
      _ = mask3 d := this
  · rw [if_neg hall]

theorem cellMasked_eq_decide (v : Val) :
    cellMasked v = decide (v = some cellNodata ∨ v = none) := by
  cases v with
  | none => simp [cellMasked]
  | some z =>
      by_cases h : z = cellNodata
      · subst h; simp [cellMasked]
      · simp [cellMasked, h]

/-- C3: the mask of every read result (whole raster, single row, or window)
is a concrete boolean array of exactly the data's shape, and a cell is masked
exactly when its value equals the stack's no-data sentinel or is non-finite.
The two mask rules are OR'd cell-wise, and the shrunk scalar "no mask" case is
expanded to an explicit all-`False` array, so the mask is never absent. -/
theorem read_mask_concrete_and_cellwise (st : List Layer) (reg : Region)
    (row : Option Nat) (window : Option (Nat × Nat)) :
    (read st reg row window).mask =
      (read st reg row window).data.map
        (fun b => b.map fun r => r.map fun v =>
          decide (v = some cellNodata ∨ v = none))
    ∧ shape3 (read st reg row window).mask = shape3 (read st reg row window).data := by
  have hmask : (read st reg row window).mask = mask3 (read st reg row window).data :=
    readMask_eq_mask3 _
  constructor
  · rw [hmask]
    unfold mask3
    refine List.map_congr_left fun b _ => ?_
    refine List.map_congr_left fun r _ => ?_
    refine List.map_congr_left fun v _ => cellMasked_eq_decide v
  · rw [hmask]
    simp [shape3, mask3, List.map_map, Function.comp]

-- C4: the concrete stack exhibiting the `read(row=0)` branch.

/-- A single concrete layer for the row-read experiment. -/
def layerEx4 : Layer := fun r c => some (Int.ofNat (10 * r + c))

/-- A one-layer stack over a 2×2 region. -/
def stEx4 : List Layer := [layerEx4]

/-- The 2×2 region for the row-read experiment. -/
def regEx4 : Region := ⟨2, 2⟩

/-- C4: `read(row=0)` does not read a single row.  Because Python's
`elif row:` is false for `row = 0`, the call falls through to the whole-raster
branch: on a 2×2 single-layer stack it returns the full 2-row array (identical
to `read()`), not the claimed shape `(1, 1, 2)`; `read(row=1)` by contrast
does return a single row. -/
theorem read_row_zero_reads_whole_raster :
    readData stEx4 regEx4 (some 0) none = readData stEx4 regEx4 none none
    ∧ ((readData stEx4 regEx4 (some 0) none).getD 0 []).length = 2
    ∧ ((readData stEx4 regEx4 (some 1) none).getD 0 []).length = 1 := by
  refine ⟨rfl, rfl, rfl⟩

-- C1: reading the whole raster equals reading it window-by-window and
-- concatenating row-wise.

/-- The consecutive row indices `[a, b)` (Python's `range(a, b)`). -/
def rowsIdx (a b : Nat) : List Nat :=
  (List.range (b - a)).map (a + ·)

/-- Row-wise concatenation of a sequence of `n`-band arrays, each band a list
of rows (`np.concatenate(..., axis=1)` band by band). -/
def concatRowwise {ρ : Type} (n : Nat) (xs : List (List (List ρ))) :
    List (List ρ) :=
  xs.foldr (fun x acc => List.zipWith (· ++ ·) x acc) (List.replicate n [])

theorem rowsIdx_append (a b c : Nat) (hab : a ≤ b) (hbc : b ≤ c) :
    rowsIdx a b ++ rowsIdx b c = rowsIdx a c := by
  unfold rowsIdx
  have hc : c - a = (b - a) + (c - b) := by omega
  rw [hc, List.range_add, List.map_append, List.map_map]
  congr 1
  refine List.map_congr_left fun x _ => ?_
  simp only [Function.comp]
  omega

theorem rowsIdx_self (a : Nat) : rowsIdx a a = [] := by
  simp [rowsIdx]

/-- Every window produced by `rowWindowsFrom` is an ordered pair within the
region. -/
theorem rowWindowsFrom_mem (rows h : Nat) :
    ∀ start, ∀ w ∈ rowWindowsFrom rows h start, w.1 ≤ w.2 ∧ w.2 ≤ rows := by
  have main : ∀ fuel start, rows - start ≤ fuel →
      ∀ w ∈ rowWindowsFrom rows h start, w.1 ≤ w.2 ∧ w.2 ≤ rows := by
    intro fuel
    induction fuel with
    | zero =>
        intro start hle w hw
        rw [rowWindowsFrom] at hw
        have hng : ¬ (start < rows ∧ 0 < h) := by omega
        rw [dif_neg hng] at hw
        cases hw
    | succ fuel ih =>
        intro start hle w hw
        rw [rowWindowsFrom] at hw
        by_cases hc : start < rows ∧ 0 < h
        · rw [dif_pos hc] at hw
          rcases List.mem_cons.mp hw with h1 | h1
          · subst h1
            refine ⟨le_min (Nat.le_add_right _ _) (le_of_lt hc.1), min_le_right _ _⟩
          · exact ih (start + h) (by omega) w h1
        · rw [dif_neg hc] at hw
          cases hw
  intro start
  exact main (rows - start) start (le_refl _)

/-- The windows produced from `start` cover exactly the row indices
`[start, rows)`, in order. -/
theorem windows_cover (rows h : Nat) (hh : 0 < h) :
    ∀ start, ((rowWindowsFrom rows h start).map fun w => rowsIdx w.1 w.2).flatten
      = rowsIdx start rows := by
  have main : ∀ fuel start, rows - start ≤ fuel →
      ((rowWindowsFrom rows h start).map fun w => rowsIdx w.1 w.2).flatten
        = rowsIdx start rows := by
    intro fuel
    induction fuel with
    | zero =>
        intro start hle
        rw [rowWindowsFrom]
        have hng : ¬ (start < rows ∧ 0 < h) := by omega
        rw [dif_neg hng]
        have h0 : rows - start = 0 := by omega
        simp [rowsIdx, h0]
    | succ fuel ih =>
        intro start hle
        rw [rowWindowsFrom]
        by_cases hc : start < rows ∧ 0 < h
        · rw [dif_pos hc]
          rw [List.map_cons, List.flatten_cons, ih (start + h) (by omega)]
          by_cases hm : start + h ≤ rows
          · rw [Nat.min_eq_left hm]
            exact rowsIdx_append start (start + h) rows (Nat.le_add_right _ _) hm
          · have hmr : min (start + h) rows = rows := by omega
            rw [hmr]
            have hre : rowsIdx (start + h) rows = [] := by
              have h0 : rows - (start + h) = 0 := by omega
              simp [rowsIdx, h0]
            rw [hre, List.append_nil]
        · rw [dif_neg hc]
          have h0 : rows - start = 0 := by omega
          simp [rowsIdx, h0]
  intro start
  exact main (rows - start) start (le_refl _)

/-- The data read through a window `(a, b)` with `a ≤ b`: one list of rows
`[a, b)` per layer. -/
theorem window_read_data (st : List Layer) (reg : Region) (w : Nat × Nat)
    (hab : w.1 ≤ w.2) :
    readData st reg none (some w) =
      st.map fun L => (rowsIdx w.1 w.2).map fun r => rowVals L r reg.cols := by
  obtain ⟨a, b⟩ := w
  simp only at hab
  unfold readData rowsIdx
  refine List.map_congr_left fun L _ => ?_
  rw [Nat.max_eq_right hab, Nat.min_eq_left hab, List.map_map]
  refine List.map_congr_left fun i hi => ?_
  rw [List.mem_range] at hi
  simp [hi, Function.comp]

/-- The mask of a window read, in the same per-layer form. -/
theorem window_read_mask (st : List Layer) (reg : Region) (w : Nat × Nat)
    (hab : w.1 ≤ w.2) :
    (read st reg none (some w)).mask =
      st.map fun L => (rowsIdx w.1 w.2).map fun r =>
        (rowVals L r reg.cols).map cellMasked := by
  show readMask (readData st reg none (some w)) = _
  rw [readMask_eq_mask3, window_read_data st reg w hab]
  simp [mask3, List.map_map, Function.comp]

theorem zipWith_append_map {α β : Type} (st : List α) (f g : α → List β) :
    List.zipWith (· ++ ·) (st.map f) (st.map g) = st.map fun L => f L ++ g L := by
  induction st with
  | nil => rfl
  | cons x xs ih => simp [ih]

theorem replicate_nil_eq_map {α β : Type} (st : List α) :
    (List.replicate st.length ([] : List β)) = st.map fun _ => [] := by
  induction st with
  | nil => rfl
  | cons x xs ih => rw [List.map_cons, List.length_cons, List.replicate_succ, ih]

/-- Row-wise concatenation of per-layer reads commutes with the per-layer
structure. -/
theorem concatRowwise_map {α β : Type} (st : List α) (ws : List (Nat × Nat))
    (g : Nat × Nat → α → List β) :
    concatRowwise st.length (ws.map fun w => st.map (g w)) =
      st.map fun L => (ws.map fun w => g w L).flatten := by
  induction ws with
  | nil =>
      simp only [List.map_nil, concatRowwise, List.foldr_nil]
      rw [replicate_nil_eq_map]
      refine List.map_congr_left fun L _ => rfl
  | cons w ws ih =>
      have hstep : concatRowwise st.length ((w :: ws).map fun w => st.map (g w))
          = List.zipWith (· ++ ·) (st.map (g w))
              (concatRowwise st.length (ws.map fun w => st.map (g w))) := rfl
      rw [hstep, ih, zipWith_append_map]
      refine List.map_congr_left fun L _ => by simp

theorem rowsIdx_zero (n : Nat) : rowsIdx 0 n = List.range n := by
  unfold rowsIdx
  rw [Nat.sub_zero]
  have hid : (List.range n).map (0 + ·) = (List.range n).map id :=
    List.map_congr_left fun x _ => Nat.zero_add x
  rw [hid, List.map_id]

/-- Windowed reads of a per-row function, concatenated row-wise, equal the
full-extent read of the same function. -/
theorem concat_windows_generic {γ : Type} (st : List Layer) (rows h : Nat)
    (hh : 1 ≤ h) (F : Layer → Nat → List γ) :
    concatRowwise st.length
        ((rowWindows rows h).map fun w => st.map fun L => (rowsIdx w.1 w.2).map (F L))
      = st.map fun L => (List.range rows).map (F L) := by
  rw [concatRowwise_map st _ (fun w L => (rowsIdx w.1 w.2).map (F L))]
  refine List.map_congr_left fun L _ => ?_
  have hmm : (rowWindows rows h).map (fun w => (rowsIdx w.1 w.2).map (F L))
      = ((rowWindows rows h).map fun w => rowsIdx w.1 w.2).map (List.map (F L)) := by
    rw [List.map_map]
    rfl
  have hcov : ((rowWindows rows h).map fun w => rowsIdx w.1 w.2).flatten
      = rowsIdx 0 rows := windows_cover rows h hh 0
  rw [hmm, ← List.map_flatten, hcov, rowsIdx_zero]

/-- C1: reading the entire raster and reading it window-by-window over
`row_windows(height=h)` (1 ≤ h ≤ rows) and concatenating the per-window
results row-wise yield identical values and identical masks. -/
theorem read_windowed_concat_eq_full (st : List Layer) (reg : Region) (h : Nat)
    (h1 : 1 ≤ h) (h2 : h ≤ reg.rows) :
    concatRowwise st.length
        ((rowWindows reg.rows h).map fun w => (read st reg none (some w)).data)
      = (read st reg none none).data
    ∧ concatRowwise st.length
        ((rowWindows reg.rows h).map fun w => (read st reg none (some w)).mask)
      = (read st reg none none).mask := by
  have hwin : ∀ w ∈ rowWindows reg.rows h, w.1 ≤ w.2 :=
    fun w hw => (rowWindowsFrom_mem reg.rows h 0 w hw).1
  constructor
  · have hdata : (rowWindows reg.rows h).map (fun w => (read st reg none (some w)).data)
        = (rowWindows reg.rows h).map fun w =>
            st.map fun L => (rowsIdx w.1 w.2).map fun r => rowVals L r reg.cols :=
      List.map_congr_left fun w hw => window_read_data st reg w (hwin w hw)
    rw [hdata, concat_windows_generic st reg.rows h h1
      (fun L r => rowVals L r reg.cols)]
    rfl
  · have hmask : (rowWindows reg.rows h).map (fun w => (read st reg none (some w)).mask)
        = (rowWindows reg.rows h).map fun w =>
            st.map fun L => (rowsIdx w.1 w.2).map fun r =>
              (rowVals L r reg.cols).map cellMasked :=
      List.map_congr_left fun w hw => window_read_mask st reg w (hwin w hw)
    rw [hmask, concat_windows_generic st reg.rows h h1
      (fun L r => (rowVals L r reg.cols).map cellMasked)]
    show _ = readMask (readData st reg none none)
    rw [readMask_eq_mask3]
    simp [readData, mask3, List.map_map, Function.comp]

-- Witness data for C1.

/-- A second concrete layer with a sentinel cell and a non-finite cell. -/
def layerEx1 : Layer := fun r c =>
  if r = 0 then some cellNodata else if c = 0 then none else some 7

/-- A two-layer stack for the C1 witness. -/
def stEx1 : List Layer := [layerEx4, layerEx1]

/-- The 3×2 region for the C1 witness. -/
def regEx1 : Region := ⟨3, 2⟩

/-- Witness for C1 at a concrete two-layer 3×2 stack and window height 2. -/
theorem read_windowed_concat_eq_full_witness :
    concatRowwise stEx1.length
        ((rowWindows regEx1.rows 2).map fun w => (read stEx1 regEx1 none (some w)).data)
      = (read stEx1 regEx1 none none).data
    ∧ concatRowwise stEx1.length
        ((rowWindows regEx1.rows 2).map fun w => (read stEx1 regEx1 none (some w)).mask)
      = (read stEx1 regEx1 none none).mask :=
  read_windowed_concat_eq_full stEx1 regEx1 2 (by decide) (by decide)

-- Prediction functions (`_pred_fun`, `_prob_fun`, `_predfun_multioutput`,
-- lines 365–515).  A masked block is represented by its dimensions and its
-- data and mask as index functions; reshape/transpose become the row-major
-- index arithmetic they perform.

/-- A masked 3-d block `(bands, rows, cols)` as passed to the prediction
functions.  `data` holds the stored (finite) values; at masked positions the
stored value is irrelevant to every downstream use. -/
structure MArr where
  bands : Nat
  rows : Nat
  cols : Nat
  data : Nat → Nat → Nat → Int
  mask : Nat → Nat → Nat → Bool

namespace MArr

/-- The flattened `(n_samples, n_features)` mask:
`img.transpose(1, 2, 0).reshape((n_samples, n_features)).mask`. -/
def flatMask (img : MArr) (p b : Nat) : Bool :=
  img.mask b (p / img.cols) (p % img.cols)

/-- The flattened pixels after `np.ma.filled(flat_pixels, -99999)`. -/
def flatFilled (img : MArr) (p b : Nat) : Int :=
  if img.flatMask p b then -99999 else img.data b (p / img.cols) (p % img.cols)

/-- The filled feature vector of sample `p`. -/
def sampleFilled (img : MArr) (p : Nat) : List Int :=
  (List.range img.bands).map (img.flatFilled p)

/-- The raw (unfilled) feature vector of sample `p`
(`_predfun_multioutput` never calls `np.ma.filled`). -/
def sampleRaw (img : MArr) (p : Nat) : List Int :=
  (List.range img.bands).map fun b => img.data b (p / img.cols) (p % img.cols)

/-- `flat_pixels_mask.any(axis=1)` at flat sample index `p`. -/
def pixAnyFlat (img : MArr) (p : Nat) : Bool :=
  (List.range img.bands).any (img.flatMask p)

/-- Whether any band is masked at pixel `(r, c)` (`img.mask.any(axis=0)`). -/
def anyBand (img : MArr) (r c : Nat) : Bool :=
  (List.range img.bands).any fun b => img.mask b r c

end MArr

/-- `RasterStack._pred_fun` (lines 365–408) over a deterministic per-sample
estimator `est`: reshape to `(n_samples, n_features)`, fill masked cells with
`-99999`, predict, re-apply the per-pixel any-band mask, reshape to
`(1, rows, cols)`. -/
def predFun (img : MArr) (est : List Int → Int) : MArr :=
  { bands := 1
    rows := img.rows
    cols := img.cols
    data := fun _ r c => est (img.sampleFilled (r * img.cols + c))
    mask := fun _ r c => img.pixAnyFlat (r * img.cols + c) }

/-- `RasterStack._prob_fun` (lines 410–465) over a per-sample probability
estimator `estp` with `k` classes: reshape-fill-predict, reshape the result to
`(rows, cols, k)`, flatten the feature mask to a per-pixel boolean, then apply
`np.where(mask2d != mask2d.min(), True, False)` — the minimum of the block's
per-pixel mask — before repeating it over the classes and transposing to
`(k, rows, cols)`. -/
def probMask2d (img : MArr) (r c : Nat) : Bool :=
  img.pixAnyFlat (r * img.cols + c)

/-- `mask2d.min()` over the `(rows, cols)` block: the minimum of a boolean
array is `False` unless every entry is `True`. -/
def probMaskMin (img : MArr) : Bool :=
  (List.range img.rows).all fun r => (List.range img.cols).all fun c =>
    probMask2d img r c

def probFun (img : MArr) (k : Nat) (estp : List Int → Nat → Int) : MArr :=
  { bands := k
    rows := img.rows
    cols := img.cols
    data := fun j r c => estp (img.sampleFilled (r * img.cols + c)) j
    mask := fun _ r c => probMask2d img r c != probMaskMin img }

/-- `RasterStack._predfun_multioutput` (lines 467–515) over a per-sample
multi-target estimator `estm` with `k` targets: the mask is taken directly
from `img.mask.any(axis=0)` and repeated over the targets; the estimator is
called on the unfilled flattened pixels. -/
def predfunMultioutput (img : MArr) (k : Nat) (estm : List Int → Nat → Int) : MArr :=
  { bands := k
    rows := img.rows
    cols := img.cols
    data := fun j r c => estm (img.sampleRaw (r * img.cols + c)) j
    mask := fun _ r c => img.anyBand r c }

-- Index arithmetic for the row-major flatten/unflatten round trip.

theorem flat_div (r c cols : Nat) (hc : c < cols) : (r * cols + c) / cols = r := by
  have h0 : 0 < cols := Nat.lt_of_le_of_lt (Nat.zero_le c) hc
  rw [Nat.mul_comm r cols, Nat.mul_add_div h0, Nat.div_eq_of_lt hc, Nat.add_zero]

theorem flat_mod (r c cols : Nat) (hc : c < cols) : (r * cols + c) % cols = c := by
  rw [Nat.mul_comm r cols, Nat.mul_add_mod, Nat.mod_eq_of_lt hc]

/-- Flattening then unflattening recovers the per-pixel any-band mask. -/
theorem pixAnyFlat_eq_anyBand (img : MArr) (r c : Nat) (hc : c < img.cols) :
    img.pixAnyFlat (r * img.cols + c) = img.anyBand r c := by
  unfold MArr.pixAnyFlat MArr.anyBand MArr.flatMask
  rw [flat_div r c img.cols hc, flat_mod r c img.cols hc]

-- C2 counterexample: a fully masked 1×1 single-band block.

/-- A 1-band 1×1 block whose only pixel is masked on its only band. -/
def imgAllMasked : MArr :=
  { bands := 1, rows := 1, cols := 1, data := fun _ _ _ => 0, mask := fun _ _ _ => true }

/-- C2 counterexample: when every pixel of the block is masked,
`_prob_fun`'s `np.where(mask2d != mask2d.min(), ...)` step erases the mask —
the output pixel is unmasked although its (only) input band is masked. -/
theorem probFun_all_masked_unmasks :
    (probFun imgAllMasked 1 (fun _ _ => 0)).mask 0 0 0 = false
    ∧ imgAllMasked.mask 0 0 0 = true := by
  refine ⟨rfl, rfl⟩

-- C2 amended theorem.

theorem probMask2d_eq_anyBand (img : MArr) (r c : Nat) (hc : c < img.cols) :
    probMask2d img r c = img.anyBand r c :=
  pixAnyFlat_eq_anyBand img r c hc

theorem probMaskMin_eq_false (img : MArr)
    (hex : ∃ r2, r2 < img.rows ∧ ∃ c2, c2 < img.cols ∧ img.anyBand r2 c2 = false) :
    probMaskMin img = false := by
  obtain ⟨r2, hr2, c2, hc2, hfalse⟩ := hex
  by_contra hne
  have htrue : probMaskMin img = true := by
    cases hmn : probMaskMin img
    · exact absurd hmn hne
    · rfl
  unfold probMaskMin at htrue
  rw [List.all_eq_true] at htrue
  have h1 := htrue r2 (List.mem_range.mpr hr2)
  rw [List.all_eq_true] at h1
  have h2 := h1 c2 (List.mem_range.mpr hc2)
  rw [probMask2d_eq_anyBand img r2 c2 hc2, hfalse] at h2
  cases h2

theorem probMaskMin_eq_true (img : MArr)
    (hall : ∀ r2, r2 < img.rows → ∀ c2, c2 < img.cols → img.anyBand r2 c2 = true) :
    probMaskMin img = true := by
  unfold probMaskMin
  rw [List.all_eq_true]
  intro r2 hr2
  rw [List.all_eq_true]
  intro c2 hc2
  rw [List.mem_range] at hr2 hc2
  rw [probMask2d_eq_anyBand img r2 c2 hc2]
  exact hall r2 hr2 c2 hc2

/-- C2 (amended): for `_pred_fun` and `_predfun_multioutput` an output pixel
is masked exactly when some input band is masked there, with the mask
replicated over all output bands.  For `_prob_fun` this holds whenever at
least one pixel of the block has all bands valid; when every pixel of the
block is masked, the `np.where(mask2d != mask2d.min(), ...)` step instead
yields an all-`False` output mask.  The `_prob_fun` mask is replicated
identically over the classes in every case. -/
theorem prediction_masks (img : MArr) (est : List Int → Int) (k : Nat)
    (estp estm : List Int → Nat → Int) (r c : Nat)
    (hr : r < img.rows) (hc : c < img.cols) :
    ((predFun img est).mask 0 r c = img.anyBand r c)
    ∧ (∀ j, (predfunMultioutput img k estm).mask j r c = img.anyBand r c)
    ∧ ((∃ r2, r2 < img.rows ∧ ∃ c2, c2 < img.cols ∧ img.anyBand r2 c2 = false) →
        ∀ j, (probFun img k estp).mask j r c = img.anyBand r c)
    ∧ ((∀ r2, r2 < img.rows → ∀ c2, c2 < img.cols → img.anyBand r2 c2 = true) →
        ∀ j, (probFun img k estp).mask j r c = false)
    ∧ (∀ j j2, (probFun img k estp).mask j r c = (probFun img k estp).mask j2 r c) := by
  refine ⟨pixAnyFlat_eq_anyBand img r c hc, fun j => rfl, ?_, ?_, fun j j2 => rfl⟩
  · intro hex j
    show (probMask2d img r c != probMaskMin img) = img.anyBand r c
    rw [probMaskMin_eq_false img hex, probMask2d_eq_anyBand img r c hc,
      Bool.bne_false]
  · intro hall j
    show (probMask2d img r c != probMaskMin img) = false
    rw [probMaskMin_eq_true img hall, probMask2d_eq_anyBand img r c hc,
      hall r hr c hc, Bool.bne_true, Bool.not_true]

-- Witness data for C2: a 2-band 1×2 block with one masked and one valid
-- pixel.

/-- A 2-band 1×2 block: pixel (0,0) is masked on band 0, pixel (0,1) is fully
valid. -/
def imgMixed : MArr :=
  { bands := 2, rows := 1, cols := 2
    data := fun _ _ _ => 5
    mask := fun b _ c => b == 0 && c == 0 }

/-- A concrete single-output estimator for the C2 witness. -/
def estEx2 : List Int → Int := fun xs => xs.foldl (· + ·) 0

/-- A concrete multi-column estimator for the C2 witness. -/
def estEx2m : List Int → Nat → Int := fun xs j => xs.foldl (· + ·) (Int.ofNat j)

/-- Witness for C2 (amended) at the concrete mixed block. -/
theorem prediction_masks_witness :
    ((predFun imgMixed estEx2).mask 0 0 0 = imgMixed.anyBand 0 0)
    ∧ (∀ j, (predfunMultioutput imgMixed 2 estEx2m).mask j 0 0 = imgMixed.anyBand 0 0)
    ∧ ((∃ r2, r2 < imgMixed.rows ∧ ∃ c2, c2 < imgMixed.cols ∧
          imgMixed.anyBand r2 c2 = false) →
        ∀ j, (probFun imgMixed 2 estEx2m).mask j 0 0 = imgMixed.anyBand 0 0)
    ∧ ((∀ r2, r2 < imgMixed.rows → ∀ c2, c2 < imgMixed.cols →
          imgMixed.anyBand r2 c2 = true) →
        ∀ j, (probFun imgMixed 2 estEx2m).mask j 0 0 = false)
    ∧ (∀ j j2, (probFun imgMixed 2 estEx2m).mask j 0 0
        = (probFun imgMixed 2 estEx2m).mask j2 0 0) :=
  prediction_masks imgMixed estEx2 2 estEx2m estEx2m 0 0 (by decide) (by decide)

-- `predict_proba` label handling (lines 604–649) and the raster naming of
-- `_predict_multi` (lines 655–661).

/-- The function-indexed view of a window read, as fed to the prediction
functions: dimensions `(len(stack), row_stop - row_start, region.cols)`,
with values and the cell-wise mask of `read`.  Masked cells carry a dummy `0`
value, which no downstream use observes (they are filled before use). -/
def readW (st : List Layer) (reg : Region) (w : Nat × Nat) : MArr :=
  { bands := st.length
    rows := w.2 - w.1
    cols := reg.cols
    data := fun b r c =>
      match (st.getD b fun _ _ => none) (w.1 + r) c with
      | some z => z
      | none => 0
    mask := fun b r c => cellMasked ((st.getD b fun _ _ => none) (w.1 + r) c) }

/-- `test_window = list(self.row_windows(height=1))[0]` (line 633). -/
def testWindow (reg : Region) : Nat × Nat :=
  (rowWindows reg.rows 1).headD (0, 0)

/-- Label inference of `predict_proba` when `class_labels is None`
(lines 632–636): probe the estimator on the first height-1 window and take
`range(result.shape[2])`.  After `_prob_fun`'s transpose the result has shape
`(classes, rows, cols)`, so `shape[2]` is the column count of the region, not
the class count. -/
def inferClassLabels (st : List Layer) (reg : Region) (k : Nat)
    (estp : List Int → Nat → Int) : List Int :=
  let img := readW st reg (testWindow reg)
  let result := probFun img k estp
  (List.range result.cols).map Int.ofNat

/-- Python's `max` over a non-empty list (`max(class_labels)`, line 640). -/
def maxList : List Int → Int
  | [] => 0
  | x :: xs => xs.foldl max x

/-- The binary collapse of `predict_proba` (lines 638–642): with exactly two
labels, keep only the larger label and probability column index 1; otherwise
keep all labels with indexes `0..n-1`. -/
def probaPlan (class_labels : List Int) : List Int × List Nat :=
  if class_labels.length = 2 then ([maxList class_labels], [1])
  else (class_labels, List.range class_labels.length)

/-- The output rasters `_predict_multi` opens for writing (lines 655–661):
one per retained class label, named `output + '_' + str(label)`. -/
def outputNames (output : String) (class_labels : List Int) : List String :=
  class_labels.map fun label => output ++ "_" ++ toString label

/-- The names of the rasters produced by
`predict_proba(estimator, output, class_labels, height)` on the windowed
path: labels are taken from the caller or inferred by probing, then the
binary collapse is applied. -/
def predictProbaRasters (st : List Layer) (reg : Region) (k : Nat)
    (estp : List Int → Nat → Int) (output : String)
    (class_labels : Option (List Int)) : List String :=
  let labels :=
    match class_labels with
    | some ls => ls
    | none => inferClassLabels st reg k estp
  outputNames output (probaPlan labels).1

/-- The per-raster value sources of the windowed write loop (lines 678–682):
raster `i` is filled from `result[indexes[i]]`. -/
def writtenBands (result : MArr) (indexes : List Nat) : List (Nat → Nat → Int) :=
  indexes.map fun i => result.data i

-- C5: concrete failing input for the binary-collapse claim.

/-- A one-layer stack for the C5 evidence. -/
def stEx5 : List Layer := [fun _ _ => some 1]

/-- A 4-row, 3-column region for the C5 evidence. -/
def regEx5 : Region := ⟨4, 3⟩

/-- A two-class probability estimator for the C5 evidence. -/
def estpEx5 : List Int → Nat → Int := fun _ j => if j = 0 then 1 else 0

/-- C5: with a two-class estimator but no supplied labels over a 3-column
region, `class_labels = range(result.shape[2])` enumerates the region's
columns (the probe result is `(classes, rows, cols)` after the transpose), so
three rasters `out_0, out_1, out_2` are planned instead of the single
positive-class raster the claim describes. -/
theorem predict_proba_inferred_two_classes :
    predictProbaRasters stEx5 regEx5 2 estpEx5 "out" none
      = ["out_0", "out_1", "out_2"]
    ∧ inferClassLabels stEx5 regEx5 2 estpEx5 = [0, 1, 2] := by
  refine ⟨rfl, rfl⟩

/-- C10: when the caller supplies exactly two class labels, the collapse
keeps one raster named with the larger label, and the windowed write loop
fills it from probability column index 1, whatever the two labels are. -/
theorem predict_proba_explicit_two_labels (a b : Int) (output : String)
    (st : List Layer) (reg : Region) (k : Nat) (estp : List Int → Nat → Int)
    (result : MArr) :
    predictProbaRasters st reg k estp output (some [a, b])
      = [output ++ "_" ++ toString (max a b)]
    ∧ (probaPlan [a, b]).2 = [1]
    ∧ writtenBands result (probaPlan [a, b]).2 = [result.data 1] := by
  refine ⟨rfl, rfl, rfl⟩

-- C9: handle discipline of the windowed prediction paths
-- (`predict`, lines 571–592, and `_predict_multi`, lines 651–698).

/-- The observable outcome of a windowed prediction run: which output raster
handles are still open when control leaves the call, whether the failure was
converted to a fatal report (`gs.fatal` in the `except:` clause), and whether
an exception escaped the call unconverted. -/
structure PredState where
  opened : List Nat
  fatal : Bool
  escaped : Bool

/-- `for i in dst: i.close()` — the `finally:` clause (lines 695–698). -/
def closeAll (hs : List Nat) (opened : List Nat) : List Nat :=
  hs.foldl (fun s i => s.erase i) opened

/-- The open loop of `_predict_multi` (lines 656–661): handles `0..n-1` are
opened in order; an exception while opening handle `i` (e.g. the raster
exists and `overwrite=False`) leaves handles `0..i-1` open and propagates —
this loop is outside the `try:` block. -/
def openLoop (n : Nat) (openFailAt : Option Nat) : List Nat × Bool :=
  (List.range n).foldl
    (fun acc i =>
      if acc.2 then acc
      else if openFailAt = some i then (acc.1, true)
      else (acc.1 ++ [i], false))
    ([], false)

/-- The window loop body (lines 671–682): reading, predicting and writing
window `w`; `failAt = some w` makes that window raise. -/
def runWindows (failAt : Option Nat) : List Nat → Bool
  | [] => false
  | w :: ws => if failAt = some w then true else runWindows failAt ws

/-- `_predict_multi` with a height given: open one handle per class label,
then `try:` the window loop, `except:` report fatal, `finally:` close every
handle in `dst`. -/
def predictMulti (nLabels nWindows : Nat) (openFailAt failAt : Option Nat) :
    PredState :=
  let od := openLoop nLabels openFailAt
  if od.2 then
    { opened := od.1, fatal := false, escaped := true }
  else
    let raised := runWindows failAt (List.range nWindows)
    { opened := closeAll od.1 od.1, fatal := raised, escaped := false }

/-- `predict` with a height given (lines 571–592): the single output raster
is opened by a `with` statement, which closes it on both the normal and the
exceptional exit before the exception propagates. -/
def predictSingleWindowed (nWindows : Nat) (openFail : Bool)
    (failAt : Option Nat) : PredState :=
  if openFail then
    { opened := [], fatal := false, escaped := true }
  else
    let raised := runWindows failAt (List.range nWindows)
    { opened := closeAll [0] [0], fatal := false, escaped := raised }

theorem closeAll_self (l : List Nat) : closeAll l l = [] := by
  induction l with
  | nil => rfl
  | cons x xs ih =>
      show List.foldl (fun s i => s.erase i) ((x :: xs).erase x) xs = []
      rw [List.erase_cons_head]
      exact ih

theorem openLoop_none (n : Nat) : openLoop n none = (List.range n, false) := by
  unfold openLoop
  have main : ∀ (l : List Nat) (acc : List Nat),
      l.foldl (fun acc i =>
          if acc.2 then acc
          else if (none : Option Nat) = some i then (acc.1, true)
          else (acc.1 ++ [i], false)) (acc, false)
        = (acc ++ l, false) := by
    intro l
    induction l with
    | nil => intro acc; simp
    | cons x xs ih =>
        intro acc
        simp only [List.foldl_cons]
        rw [if_neg (by simp), if_neg (by simp)]
        rw [ih (acc ++ [x])]
        simp
  have h := main (List.range n) []
  simpa using h

theorem runWindows_hit (j : Nat) : ∀ ws : List Nat, j ∈ ws →
    runWindows (some j) ws = true := by
  intro ws
  induction ws with
  | nil => intro h; cases h
  | cons w ws ih =>
      intro h
      unfold runWindows
      rcases List.mem_cons.mp h with h1 | h1
      · rw [if_pos (by rw [h1])]
      · by_cases he : (some j : Option Nat) = some w
        · rw [if_pos he]
        · rw [if_neg he]
          exact ih h1

/-- C9: during a windowed prediction run whose opens succeed, every output
handle opened for writing is closed on every exit path — whether the window
loop succeeds or raises — and a window failure is reported as fatal by
`_predict_multi`; the same holds for `predict`'s single `with`-scoped output
handle. -/
theorem windowed_prediction_closes_outputs (nLabels nWindows : Nat)
    (openFailAt failAt : Option Nat) (ho : openFailAt = none) :
    (predictMulti nLabels nWindows openFailAt failAt).opened = []
    ∧ (∀ j, failAt = some j → j < nWindows →
        (predictMulti nLabels nWindows openFailAt failAt).fatal = true)
    ∧ (predictSingleWindowed nWindows false failAt).opened = [] := by
  subst ho
  have hm : predictMulti nLabels nWindows none failAt
      = { opened := closeAll (List.range nLabels) (List.range nLabels)
          fatal := runWindows failAt (List.range nWindows)
          escaped := false } := by
    unfold predictMulti
    rw [openLoop_none]
    rfl
  refine ⟨?_, ?_, ?_⟩
  · rw [hm]
    exact closeAll_self _
  · intro j hj hlt
    rw [hm]
    show runWindows failAt (List.range nWindows) = true
    subst hj
    exact runWindows_hit j (List.range nWindows) (List.mem_range.mpr hlt)
  · show closeAll [0] [0] = []
    exact closeAll_self [0]

/-- Witness for C9: two class labels, three windows, the second window
raises. -/
theorem windowed_prediction_closes_outputs_witness :
    (predictMulti 2 3 none (some 1)).opened = []
    ∧ (∀ j, (some 1 : Option Nat) = some j → j < 3 →
        (predictMulti 2 3 none (some 1)).fatal = true)
    ∧ (predictSingleWindowed 3 false (some 1)).opened = [] :=
  windowed_prediction_closes_outputs 2 3 none (some 1) rfl

-- C7: the label coercion of `extract_pixels` (lines 746–750).

/-- numpy `v % 1`: the remainder with divisor 1, i.e. `v - floor(v)`,
always in `[0, 1)`. -/
def fracPart (v : Rat) : Rat := v - ⌊v⌋

/-- `astype('int')`: float-to-int conversion truncates toward zero. -/
def npTrunc (v : Rat) : Int :=
  if v < 0 then -⌊-v⌋ else ⌊v⌋

/-- The label handling of `extract_pixels` (lines 746–750):
`if (y % 1).all() == 0: y = y.astype('int')`.  `(y % 1).all()` is a single
boolean — true iff every remainder is nonzero — and comparing it with `0`
asks that it be `False`, so the conversion runs as soon as one label is
integral. -/
def extractPixelsY (y : List Rat) : List Rat ⊕ List Int :=
  if (y.all fun v => !(fracPart v == 0)) = false then Sum.inr (y.map npTrunc)
  else Sum.inl y

/-- C7: the coercion condition is inverted.  With labels `[1.0, 2.5]` — not
all integral — the code still converts to integers, truncating `2.5` to `2`;
only an all-fractional label column such as `[1.5, 2.5]` stays floating.  The
all-integral column `[1.0, 2.0]` is converted as the claim expects, so the
divergence is exactly the mixed case. -/
theorem extract_pixels_label_coercion :
    extractPixelsY [(1 : Rat), 5/2] = Sum.inr [1, 2]
    ∧ extractPixelsY [(3/2 : Rat), 5/2] = Sum.inl [3/2, 5/2]
    ∧ extractPixelsY [(1 : Rat), 2] = Sum.inr [1, 2] := by
  have hfl52 : ⌊(5/2 : Rat)⌋ = 2 := by
    rw [Int.floor_eq_iff (α := Rat)] <;> norm_num
  have hfl32 : ⌊(3/2 : Rat)⌋ = 1 := by
    rw [Int.floor_eq_iff (α := Rat)] <;> norm_num
  have hf1 : fracPart 1 = 0 := by norm_num [fracPart]
  have hf2 : fracPart 2 = 0 := by norm_num [fracPart]
  have hf52 : fracPart (5/2) = 1/2 := by
    rw [fracPart, hfl52]
    norm_num
  have hf32 : fracPart (3/2) = 1/2 := by
    rw [fracPart, hfl32]
    norm_num
  have hne : ((1/2 : Rat) == 0) = false := by
    rw [beq_eq_false_iff_ne]
    norm_num
  have ht1 : npTrunc 1 = 1 := by norm_num [npTrunc]
  have ht2 : npTrunc 2 = 2 := by norm_num [npTrunc]
  have ht52 : npTrunc (5/2) = 2 := by
    rw [npTrunc, if_neg (by norm_num), hfl52]
  refine ⟨?_, ?_, ?_⟩
  · rw [extractPixelsY, if_pos ?_]
    · rw [List.map_cons, List.map_cons, List.map_nil, ht1, ht52]
    · simp [hf1]
  · rw [extractPixelsY, if_neg ?_]
    simp [hf32, hf52, hne]
  · rw [extractPixelsY, if_pos ?_]
    · rw [List.map_cons, List.map_cons, List.map_nil, ht1, ht2]
    · simp [hf1]

-- C8: `__getitem__` (lines 74–106).

/-- A Python value as it flows through `__getitem__`: a raster name string,
or an opened `RasterRow` handle (which has no `.split` method). -/
inductive PyVal where
  | str (s : String)
  | rasterRow (name mapset : String)
deriving DecidableEq

/-- A Python exception outcome. -/
inductive PyErr where
  | keyError
  | attributeError (attr : String)
deriving DecidableEq

/-- Modelled from the spec: the `ExtendedDict` registry of the `indexing`
module (not under `src/`) is an ordered mapping from short layer name to the
stored `RasterRow` handle; looking up an absent key is a lookup error
(a mapping-lookup `KeyError`). -/
structure StackM where
  entries : List (String × PyVal)

/-- `src.fullname()`: `name@mapset`. -/
def fullname : PyVal → String
  | .str s => s
  | .rasterRow n m => n ++ "@" ++ m

/-- `self.names` (lines 132–142): full names of the stored handles. -/
def namesM (st : StackM) : List String :=
  st.entries.map fun e => fullname e.2

/-- `self.loc[label]`: mapping lookup. -/
def locGet (st : StackM) (k : String) : Option PyVal :=
  (st.entries.find? fun e => e.1 = k).map (·.2)

/-- The label loop of `__getitem__` (lines 93–100).  Python's
`if i in self.names is False` is a chained comparison —
`(i in self.names) and (self.names is False)` — and a list is never `False`,
so the explicit `KeyError` branch is dead; an absent label instead raises
`KeyError` from the `self.loc[i]` mapping lookup. -/
def getitemLoop (st : StackM) : List String → Except PyErr (List PyVal)
  | [] => .ok []
  | i :: rest =>
      if (decide (i ∈ namesM st) && false) = true then .error .keyError
      else
        match locGet st i with
        | none => .error .keyError
        | some v => (getitemLoop st rest).map fun vs => v :: vs

/-- `i.split('@')[0]` inside the `layers` setter (line 173): defined for a
string, an `AttributeError` for a `RasterRow` handle. -/
def splitAtSign (v : PyVal) : Except PyErr String :=
  match v with
  | .str s => .ok ((s.splitOn "@").headD s)
  | .rasterRow _ _ => .error (.attributeError "split")

/-- The list comprehension `[i.split('@')[0] for i in mapnames]`: evaluated
left to right, stopping at the first failing element. -/
def splitAll : List PyVal → Except PyErr (List String)
  | [] => .ok []
  | v :: vs => do
      let s ← splitAtSign v
      let rest ← splitAll vs
      .ok (s :: rest)

/-- `RasterStack(subset_layers)` as called from `__getitem__`: the `layers`
setter first maps `i.split('@')[0]` over its arguments (line 173), so any
`RasterRow` element raises before the registry is rebuilt; the rest of the
setter is reachable only for string inputs and is summarized by rebuilding
the mapping. -/
def rasterStackInit (rasters : List PyVal) : Except PyErr StackM := do
  let names ← splitAll rasters
  .ok ⟨(names.zip rasters).map fun nv => (nv.1, nv.2)⟩

/-- `__getitem__` (lines 74–106): collect `self.loc[i]` for each label,
construct `RasterStack(subset_layers)`, then call `subset_raster.rename` —
a method `RasterStack` never defines, hence an `AttributeError` even when
construction succeeds. -/
def getitemM (st : StackM) (labels : List String) : Except PyErr StackM := do
  let subsetLayers ← getitemLoop st labels
  let subset ← rasterStackInit subsetLayers
  let _ := subset
  Except.error (PyErr.attributeError "rename")

/-- A one-layer stack for the C8 evidence. -/
def stEx8 : StackM := ⟨[("a", PyVal.rasterRow "a" "m")]⟩

/-- C8: subsetting never returns a stack.  With the (present) label `"a"`,
`RasterStack(subset_layers)` receives `RasterRow` handles and the setter's
`i.split('@')` raises `AttributeError` (and even an empty subset would die on
the undefined `rename`); with the absent label `"b"`, the `self.loc`
lookup raises `KeyError` — the dedicated membership test being dead code. -/
theorem getitem_always_raises :
    getitemM stEx8 ["a"] = Except.error (PyErr.attributeError "split")
    ∧ getitemM stEx8 ["b"] = Except.error PyErr.keyError
    ∧ getitemM stEx8 [] = Except.error (PyErr.attributeError "rename") := by
  refine ⟨rfl, rfl, rfl⟩

-- C6: `extract_points` (lines 763–867).

/-- One row of the point attribute table: the primary key (the GRASS
category) and the values of the requested fields (`None` = missing). -/
structure PtRow where
  key : Nat
  fields : List (Option Int)
deriving DecidableEq

/-- A layer's sampling function: the value `v.what_rast` reports for a
point, `none` being the reserved missing token `'*'`. -/
abbrev Sample := PtRow → Option Int

/-- `df.replace(self._cell_nodata, np.nan)` (line 847) on one value.  The
join's key column holds non-negative categories and is unaffected by the
negative sentinel. -/
def replNodata (v : Option Int) : Option Int :=
  if v = some cellNodata then none else v

/-- The per-layer frame built at lines 824–840: one `(value, cat)` record
per point, where a `'*'` sample yields value NaN *and category 0*. -/
def xFrame (pts : List PtRow) (smp : Sample) : List (Option Int × Nat) :=
  pts.map fun p =>
    match smp p with
    | some v => (some v, p.key)
    | none => (none, 0)

/-- A row of the running join: key, requested-field values, feature values
collected so far. -/
structure JoinRow where
  key : Nat
  fieldVals : List (Option Int)
  featVals : List (Option Int)
deriving DecidableEq

/-- One `df = df.merge(X, on=key_col)` step (line 844): an inner join — each
row of `df` is paired with every record of `X` carrying the same key, and the
layer's value column is appended. -/
def mergeStep (df : List JoinRow) (x : List (Option Int × Nat)) : List JoinRow :=
  df.flatMap fun row =>
    (x.filter fun q => q.2 == row.key).map fun q =>
      ⟨row.key, row.fieldVals, row.featVals ++ [q.1]⟩

/-- The join of the attribute table with every layer's samples
(lines 811–844). -/
def extractPointsJoin (pts : List PtRow) (layers : List Sample) : List JoinRow :=
  layers.foldl (fun df smp => mergeStep df (xFrame pts smp))
    (pts.map fun p => ⟨p.key, p.fields, []⟩)

/-- The sentinel replacement applied row-wise (line 847). -/
def replRow (row : JoinRow) : JoinRow :=
  ⟨row.key, row.fieldVals.map replNodata, row.featVals.map replNodata⟩

/-- `dropna(subset=fields)` (line 850): every requested field present. -/
def fieldsPresent (row : JoinRow) : Bool :=
  row.fieldVals.all (·.isSome)

/-- `dropna()` (line 856): every field and feature value present. -/
def rowComplete (row : JoinRow) : Bool :=
  row.fieldVals.all (·.isSome) && row.featVals.all (·.isSome)

/-- `extract_points` (lines 763–867): join, replace the integer sentinel by
NaN, `dropna(subset=fields)` unconditionally, and `dropna()` over all columns
when `na_rm` is true. -/
def extractPointsRows (pts : List PtRow) (layers : List Sample)
    (na_rm : Bool) : List JoinRow :=
  let dropped := ((extractPointsJoin pts layers).map replRow).filter fieldsPresent
  if na_rm then dropped.filter rowComplete else dropped

-- C6 counterexample data.

/-- One point, key 1, with its single requested field present. -/
def ptsEx6 : List PtRow := [⟨1, [some 7]⟩]

/-- A layer whose sample at every point is the missing token `'*'`. -/
def smpStar : Sample := fun _ => none

/-- A layer with an ordinary value at every point. -/
def smpFive : Sample := fun _ => some 5

/-- C6 counterexample: with `na_rm = False` and the point's only feature
sample being the missing token `'*'`, the point vanishes from the output —
its `X` record gets category 0, so the inner join on the key drops it — even
though the claim says a row missing only a feature value is kept when
`na_rm` is false.  With an ordinary sample the same call keeps the row, so
the missing feature alone causes the exclusion. -/
theorem extract_points_star_dropped_despite_na_rm_false :
    extractPointsRows ptsEx6 [smpStar] false = []
    ∧ extractPointsRows ptsEx6 [smpFive] false = [⟨1, [some 7], [some 5]⟩] := by
  refine ⟨rfl, rfl⟩

-- The join characterization backing the amended C6 statement.

/-- The join rows produced after merging the layers `acc`: one row per point
whose every sample so far is non-missing, carrying the raw sample values. -/
def joinRowsOf (pts : List PtRow) (acc : List Sample) : List JoinRow :=
  pts.filterMap fun p =>
    if acc.all fun smp => (smp p).isSome then
      some ⟨p.key, p.fields, acc.map fun smp => smp p⟩
    else none

theorem xFrame_filter_none (smp : Sample) (k : Nat) (hk : k ≠ 0) :
    ∀ pts : List PtRow, (∀ q ∈ pts, q.key ≠ k) →
    (xFrame pts smp).filter (fun q => q.2 == k) = [] := by
  intro pts
  induction pts with
  | nil => intro _; rfl
  | cons q rest ih =>
      intro hq
      have hqk : q.key ≠ k := hq q (List.mem_cons_self q rest)
      have hrest := ih fun r hr => hq r (List.mem_cons_of_mem q hr)
      have hx : xFrame (q :: rest) smp
          = (match smp q with
             | some v => (some v, q.key)
             | none => ((none : Option Int), 0)) :: xFrame rest smp := rfl
      rw [hx]
      cases hsq : smp q with
      | some v =>
          rw [List.filter_cons, if_neg (by simp [hqk])]
          exact hrest
      | none =>
          rw [List.filter_cons, if_neg (by simp [Ne.symm hk])]
          exact hrest

theorem xFrame_filter_eq (smp : Sample) (p : PtRow) :
    ∀ pts : List PtRow, p ∈ pts → (pts.map PtRow.key).Nodup →
    (∀ q ∈ pts, q.key ≠ 0) →
    (xFrame pts smp).filter (fun q => q.2 == p.key)
      = match smp p with
        | some v => [(some v, p.key)]
        | none => [] := by
  intro pts
  induction pts with
  | nil => intro hp _ _; cases hp
  | cons q rest ih =>
      intro hp hnd h0
      have hqnot : q.key ∉ rest.map PtRow.key := (List.nodup_cons.mp hnd).1
      have hndr : (rest.map PtRow.key).Nodup := (List.nodup_cons.mp hnd).2
      have h0r : ∀ r ∈ rest, r.key ≠ 0 := fun r hr => h0 r (List.mem_cons_of_mem q hr)
      have hx : xFrame (q :: rest) smp
          = (match smp q with
             | some v => (some v, q.key)
             | none => ((none : Option Int), 0)) :: xFrame rest smp := rfl
      rw [hx]
      rcases List.mem_cons.mp hp with hpq | hpr
      · subst hpq
        have hk0 : p.key ≠ 0 := h0 p (List.mem_cons_self p rest)
        have hrest0 : (xFrame rest smp).filter (fun q2 => q2.2 == p.key) = [] := by
          apply xFrame_filter_none smp p.key hk0 rest
          intro r hr hcontra
          apply hqnot
          rw [← hcontra]
          exact List.mem_map_of_mem PtRow.key hr
        cases hsp : smp p with
        | some v =>
            rw [List.filter_cons, if_pos (by simp), hrest0]
        | none =>
            rw [List.filter_cons, if_neg (by simp [Ne.symm hk0]), hrest0]
      · have hqk : q.key ≠ p.key := by
          intro hcontra
          apply hqnot
          rw [hcontra]
          exact List.mem_map_of_mem PtRow.key hpr
        have hk0 : p.key ≠ 0 := h0 p hp
        cases hsq : smp q with
        | some v =>
            rw [List.filter_cons, if_neg (by simp [hqk])]
            exact ih hpr hndr h0r
        | none =>
            rw [List.filter_cons, if_neg (by simp [Ne.symm hk0])]
            exact ih hpr hndr h0r

theorem mergeStep_joinRows_aux (pts : List PtRow)
    (hnd : (pts.map PtRow.key).Nodup) (h0 : ∀ p ∈ pts, p.key ≠ 0)
    (smp : Sample) (acc : List Sample) :
    ∀ sub : List PtRow, (∀ p ∈ sub, p ∈ pts) →
    mergeStep (joinRowsOf sub acc) (xFrame pts smp)
      = joinRowsOf sub (acc ++ [smp]) := by
  intro sub
  induction sub with
  | nil => intro _; rfl
  | cons p rest ih =>
      intro hmem
      have hp : p ∈ pts := hmem p (List.mem_cons_self p rest)
      have hrest := ih fun r hr => hmem r (List.mem_cons_of_mem p hr)
      by_cases hacc : (acc.all fun s => (s p).isSome) = true
      · have hcons : joinRowsOf (p :: rest) acc
            = ⟨p.key, p.fields, acc.map fun s => s p⟩ :: joinRowsOf rest acc :=
          List.filterMap_cons_some (by rw [if_pos hacc])
        have hsplit : mergeStep
              (⟨p.key, p.fields, acc.map fun s => s p⟩ :: joinRowsOf rest acc)
              (xFrame pts smp)
            = ((xFrame pts smp).filter fun q => q.2 == p.key).map
                (fun q => ⟨p.key, p.fields, (acc.map fun s => s p) ++ [q.1]⟩)
              ++ mergeStep (joinRowsOf rest acc) (xFrame pts smp) := rfl
        rw [hcons, hsplit, hrest, xFrame_filter_eq smp p pts hp hnd h0]
        cases hsp : smp p with
        | some v =>
            have hacc2 : ((acc ++ [smp]).all fun s => (s p).isSome) = true := by
              rw [List.all_append]
              simp [hacc, hsp]
            have hrow : joinRowsOf (p :: rest) (acc ++ [smp])
                = ⟨p.key, p.fields, (acc ++ [smp]).map fun s => s p⟩
                  :: joinRowsOf rest (acc ++ [smp]) :=
              List.filterMap_cons_some (by rw [if_pos hacc2])
            rw [hrow, List.map_append]
            simp [hsp]
        | none =>
            have hacc2 : ((acc ++ [smp]).all fun s => (s p).isSome) = false := by
              rw [List.all_append]
              simp [hsp]
            have hrow : joinRowsOf (p :: rest) (acc ++ [smp])
                = joinRowsOf rest (acc ++ [smp]) :=
              List.filterMap_cons_none (by rw [if_neg (by simp [hacc2])])
            rw [hrow]
            rfl
      · have hcons : joinRowsOf (p :: rest) acc = joinRowsOf rest acc :=
          List.filterMap_cons_none (by rw [if_neg hacc])
        have haccf : (acc.all fun s => (s p).isSome) = false := by
          cases hv : acc.all fun s => (s p).isSome
          · rfl
          · exact absurd hv hacc
        have hacc2 : ((acc ++ [smp]).all fun s => (s p).isSome) = false := by
          rw [List.all_append]
          simp [haccf]
        have hrow : joinRowsOf (p :: rest) (acc ++ [smp])
            = joinRowsOf rest (acc ++ [smp]) :=
          List.filterMap_cons_none (by rw [if_neg (by simp [hacc2])])
        rw [hcons, hrow]
        exact hrest

theorem fold_joinRows (pts : List PtRow)
    (hnd : (pts.map PtRow.key).Nodup) (h0 : ∀ p ∈ pts, p.key ≠ 0) :
    ∀ (ls acc : List Sample),
    ls.foldl (fun df smp => mergeStep df (xFrame pts smp)) (joinRowsOf pts acc)
      = joinRowsOf pts (acc ++ ls) := by
  intro ls
  induction ls with
  | nil => intro acc; rw [List.foldl_nil, List.append_nil]
  | cons s ls ih =>
      intro acc
      rw [List.foldl_cons,
        mergeStep_joinRows_aux pts hnd h0 s acc pts (fun _ hp => hp),
        ih (acc ++ [s]), List.append_assoc]
      rfl

theorem joinRowsOf_nil_acc (pts : List PtRow) :
    joinRowsOf pts [] = pts.map fun p => ⟨p.key, p.fields, []⟩ := by
  induction pts with
  | nil => rfl
  | cons p rest ih =>
      have h1 : joinRowsOf (p :: rest) []
          = ⟨p.key, p.fields, []⟩ :: joinRowsOf rest [] :=
        List.filterMap_cons_some rfl
      rw [h1, ih, List.map_cons]

/-- The reference extraction following the amended claim: a point survives
the join iff none of its samples is the missing token; then field-missing
rows (sentinel included) are dropped unconditionally and, when `na_rm` is
true, rows with any missing feature value are dropped too. -/
def expectedExtract (pts : List PtRow) (layers : List Sample)
    (na_rm : Bool) : List JoinRow :=
  ((pts.filterMap fun p =>
      if layers.all fun smp => (smp p).isSome then
        some ⟨p.key, p.fields.map replNodata, layers.map fun smp => replNodata (smp p)⟩
      else none).filter fieldsPresent).filter
    fun row => !na_rm || rowComplete row

/-- C6 (amended): with distinct, non-zero point keys, `extract_points`
returns exactly: the points all of whose samples are non-missing (a `'*'`
sample zeroes the record's join key, so such rows are dropped by the inner
join regardless of `na_rm`), minus the rows with a missing or sentinel value
in a requested field (dropped unconditionally), minus — exactly when `na_rm`
is true — the rows with a sentinel-valued feature. -/
theorem extract_points_na_semantics (pts : List PtRow) (layers : List Sample)
    (na_rm : Bool) (hnd : (pts.map PtRow.key).Nodup)
    (h0 : ∀ p ∈ pts, p.key ≠ 0) :
    extractPointsRows pts layers na_rm = expectedExtract pts layers na_rm := by
  have hjoin : extractPointsJoin pts layers = joinRowsOf pts layers := by
    unfold extractPointsJoin
    rw [← joinRowsOf_nil_acc pts]
    have h := fold_joinRows pts hnd h0 layers []
    rw [List.nil_append] at h
    exact h
  have hcore : ((extractPointsJoin pts layers).map replRow).filter fieldsPresent
      = (pts.filterMap fun p =>
          if layers.all fun smp => (smp p).isSome then
            some ⟨p.key, p.fields.map replNodata,
                  layers.map fun smp => replNodata (smp p)⟩
          else none).filter fieldsPresent := by
    rw [hjoin]
    unfold joinRowsOf
    rw [List.map_filterMap]
    refine congrArg _ (congrArg (fun F => List.filterMap F pts) (funext fun p => ?_))
    by_cases hc : (layers.all fun smp => (smp p).isSome) = true
    · rw [if_pos hc, if_pos hc]
      simp [replRow, List.map_map, Function.comp]
    · rw [if_neg hc, if_neg hc]
      rfl
  cases na_rm with
  | false =>
      show ((extractPointsJoin pts layers).map replRow).filter fieldsPresent
        = ((pts.filterMap fun p =>
            if layers.all fun smp => (smp p).isSome then
              some ⟨p.key, p.fields.map replNodata,
                    layers.map fun smp => replNodata (smp p)⟩
            else none).filter fieldsPresent).filter fun _ => true
      rw [List.filter_true]
      exact hcore
  | true =>
      show (((extractPointsJoin pts layers).map replRow).filter
            fieldsPresent).filter rowComplete
        = ((pts.filterMap fun p =>
            if layers.all fun smp => (smp p).isSome then
              some ⟨p.key, p.fields.map replNodata,
                    layers.map fun smp => replNodata (smp p)⟩
            else none).filter fieldsPresent).filter fun row => rowComplete row
      rw [hcore]
/-- Witness for C6 (amended): two points with distinct non-zero keys, one
layer with a sentinel sample at the second point, `na_rm = true`. -/
theorem extract_points_na_semantics_witness :
    extractPointsRows [⟨1, [some 7]⟩, ⟨2, [some 8]⟩]
        [fun p => if p.key = 1 then some 5 else some cellNodata] true
      = expectedExtract [⟨1, [some 7]⟩, ⟨2, [some 8]⟩]
        [fun p => if p.key = 1 then some 5 else some cellNodata] true :=
  extract_points_na_semantics _ _ true (by decide) (by decide)
